import Mathlib

/-!
Shallow embedding of the repository HigherMathInvestigations:
the polynomial engine (polynomial.py, class BasicPolynomial) and the
class-number engine (class_number.py, functions factors_of_n and
get_class_number).  Python exceptions are modelled by Except String;
polynomial coefficients are modelled as exact rationals (the programs
only ever produce float coefficients that are exactly representable).
The float pipeline inside int(n ** 0.5) in factors_of_n, namely the
rounding conversion of the int n to a double, the square root, and the
truncation back to an int, is modelled bit-exactly by pyIntSqrt below,
including the overflow of the conversion for huge n; the bound
int((D / 3) ** 0.5) of the class-number loop is modelled by the exact
integer square root, which agrees with the float computation for every
discriminant the theorems quantify over.
-/

namespace HMI

/-- Python numeric values as they occur in the programs: ints and floats,
floats modelled as exact rationals. -/
inductive PyNum where
  | pint : Int → PyNum
  | pfloat : Rat → PyNum
deriving DecidableEq, Repr

/-- Numeric value of a Python number. -/
def PyNum.toRat : PyNum → Rat
  | .pint n => (n : Rat)
  | .pfloat q => q

/-- Python numeric equality (int and float compare by value). -/
def PyNum.beq (a b : PyNum) : Bool := a.toRat == b.toRat

/-- Python addition: int + int stays int, any float operand gives a float. -/
def PyNum.add : PyNum → PyNum → PyNum
  | .pint a, .pint b => .pint (a + b)
  | a, b => .pfloat (a.toRat + b.toRat)

/-- Python subtraction with the same int/float typing as addition. -/
def PyNum.sub : PyNum → PyNum → PyNum
  | .pint a, .pint b => .pint (a - b)
  | a, b => .pfloat (a.toRat - b.toRat)

/-- Python multiplication with the same int/float typing as addition. -/
def PyNum.mul : PyNum → PyNum → PyNum
  | .pint a, .pint b => .pint (a * b)
  | a, b => .pfloat (a.toRat * b.toRat)

/-- A Python dict with int keys and numeric values, as an
insertion-ordered association list.  Dicts built by the program always
have pairwise distinct keys. -/
abbrev PyDict := List (Int × PyNum)

/-- First binding of a key, as dict lookup. -/
def PyDict.lookup : PyDict → Int → Option PyNum
  | [], _ => none
  | (k, v) :: rest, key => if k = key then some v else PyDict.lookup rest key

/-- Python d.get(key, default). -/
def PyDict.get (d : PyDict) (key : Int) (dflt : PyNum) : PyNum :=
  (d.lookup key).getD dflt

/-- Python d[key] = value: replace the first binding in place, or append
a new binding at the end. -/
def PyDict.set : PyDict → Int → PyNum → PyDict
  | [], key, v => [(key, v)]
  | (k, w) :: rest, key, v =>
      if k = key then (key, v) :: rest else (k, w) :: PyDict.set rest key v

/-- The list of keys of a dict, in order. -/
def PyDict.keys (d : PyDict) : List Int := d.map Prod.fst

/-- Python dict equality on dicts with distinct keys: the same key sets,
with numerically equal values. -/
def PyDict.eqb (d1 d2 : PyDict) : Bool :=
  d1.all (fun kv =>
    match d2.lookup kv.1 with
    | some v => kv.2.beq v
    | none => false) &&
  d2.all (fun kv => (d1.lookup kv.1).isSome)

/-- The class BasicPolynomial: a dict from exponent to coefficient plus a
display-variable label. -/
structure BasicPolynomial where
  dc_powers : PyDict
  v : String
deriving DecidableEq, Repr

/-- The coercion int(c) if int(c) == c else c applied to each value by
the constructor: a whole-valued float becomes an exact int. -/
def normCoeff : PyNum → PyNum
  | .pint n => .pint n
  | .pfloat q => if q.den = 1 then .pint q.num else .pfloat q

/-- The constructor BasicPolynomial.__init__: drop zero coefficients,
then coerce whole-valued float coefficients to ints. -/
def mkPoly (dc : PyDict) (v : String) : BasicPolynomial :=
  BasicPolynomial.mk
    ((dc.filter (fun kv => !(kv.2.toRat == 0))).map (fun kv => (kv.1, normCoeff kv.2)))
    v

/-- The method is_constant: every key equals 0. -/
def BasicPolynomial.is_constant (self : BasicPolynomial) : Bool :=
  self.dc_powers.all (fun kv => kv.1 == 0)

/-- The method __eq__ applied to a bare int or float operand.  When self
is not constant the code falls through to self.dc_powers == other.dc_powers
and a bare number has no attribute dc_powers, which raises. -/
def BasicPolynomial.eqNum (self : BasicPolynomial) (other : PyNum) :
    Except String Bool :=
  if self.is_constant then
    .ok ((self.dc_powers.get 1 (.pint 0)).beq other)
  else
    .error "AttributeError: number has no attribute dc_powers"

/-- The method __eq__ applied to another polynomial: the constant branch
does not fire because the other operand is not an int or float, so the
two dicts are compared; the variable labels are never read. -/
def BasicPolynomial.eqPoly (self other : BasicPolynomial) : Bool :=
  PyDict.eqb self.dc_powers other.dc_powers

/-- The loop body shared by __add__ and __sub__: fold the items of the
other dict into a copy of the own dict with a combining operation. -/
def mergeFold (f : PyNum → PyNum → PyNum) (d : PyDict) (items : PyDict) : PyDict :=
  items.foldl (fun dc kv => dc.set kv.1 (f (dc.get kv.1 (.pint 0)) kv.2)) d

/-- The method __add__: merge the dicts summing coefficients; raise
Warning on a variable-label mismatch (the code checks the labels only
after building the merged dict, which is not observable). -/
def BasicPolynomial.add (self other : BasicPolynomial) :
    Except String BasicPolynomial :=
  if self.v ≠ other.v then .error "variable type not consistent"
  else .ok (mkPoly (mergeFold PyNum.add self.dc_powers other.dc_powers) self.v)

/-- The method __sub__: merge the dicts subtracting coefficients; raise
Warning on a variable-label mismatch. -/
def BasicPolynomial.sub (self other : BasicPolynomial) :
    Except String BasicPolynomial :=
  if self.v ≠ other.v then .error "variable type not consistent"
  else .ok (mkPoly (mergeFold PyNum.sub self.dc_powers other.dc_powers) self.v)

/-- The dict built by the polynomial branch of __mul__: the convolution
of the two exponent maps, accumulated as dc[p] = c + dc.get(p, 0). -/
def convDict (d1 d2 : PyDict) : PyDict :=
  d1.foldl
    (fun dc kv1 =>
      d2.foldl
        (fun dc kv2 =>
          dc.set (kv1.1 + kv2.1) ((kv1.2.mul kv2.2).add (dc.get (kv1.1 + kv2.1) (.pint 0))))
        dc)
    []

/-- The method __mul__ on a polynomial operand: convolution of the
exponent maps, raising Warning on a variable-label mismatch. -/
def BasicPolynomial.mulP (self other : BasicPolynomial) :
    Except String BasicPolynomial :=
  if self.v ≠ other.v then .error "variable type not consistent"
  else .ok (mkPoly (convDict self.dc_powers other.dc_powers) self.v)

/-- The method __mul__ on an int or float operand: scale every
coefficient; __rmul__ is the same function. -/
def BasicPolynomial.mulScalar (self : BasicPolynomial) (other : PyNum) :
    BasicPolynomial :=
  mkPoly (self.dc_powers.map (fun kv => (kv.1, kv.2.mul other))) self.v

/-- The values the method __pow__ can produce: the bare int 1 at power
zero, a polynomial, or a NotImplementedError instance returned (not
raised) at a negative power. -/
inductive PowValue where
  | int : Int → PowValue
  | poly : BasicPolynomial → PowValue
  | exc : String → PowValue
deriving DecidableEq, Repr

/-- The loop of __pow__ for powers of at least two: ans = self followed
by count applications of ans = ans * self. -/
def powIter (self : BasicPolynomial) : Nat → Except String BasicPolynomial
  | 0 => .ok self
  | n + 1 =>
      match powIter self n with
      | .error e => .error e
      | .ok a => a.mulP self

/-- The method __pow__: raise NotImplementedError on a non-int power;
return the bare int 1 at power 0; return the NotImplementedError
instance as a value at a negative power; return self at power 1;
otherwise multiply repeatedly. -/
def BasicPolynomial.pow (self : BasicPolynomial) (power : PyNum) :
    Except String PowValue :=
  match power with
  | .pfloat _ => .error "Non-Integer power"
  | .pint p =>
      if p = 0 then .ok (.int 1)
      else if p < 0 then .ok (.exc "Negative power")
      else if p = 1 then .ok (.poly self)
      else
        match powIter self (p - 1).toNat with
        | .error e => .error e
        | .ok a => .ok (.poly a)

/-- Search for the largest i at most k with i * i at most n, by
structural recursion so that the kernel can evaluate it. -/
def isqrtAux (n : Nat) : Nat → Nat
  | 0 => 0
  | k + 1 => if (k + 1) * (k + 1) ≤ n then k + 1 else isqrtAux n k

/-- The exact integer square root; used below only to model the bound
int((D / 3) ** 0.5) of the class-number loop, where it agrees with the
float computation for every discriminant the theorems quantify over. -/
def isqrt (n : Nat) : Nat := isqrtAux n n

/-- Bit length with explicit fuel, by structural recursion so that the
kernel can evaluate it on large literals. -/
def nbitsAux : Nat → Nat → Nat
  | 0, _ => 0
  | fuel + 1, n => if n = 0 then 0 else nbitsAux fuel (n / 2) + 1

/-- Bit length of a natural number: the least k with n less than 2 ^ k. -/
def nbits (n : Nat) : Nat := nbitsAux n n

/-- Bisection search for the exact integer square root, with fuel, by
structural recursion so that the kernel can evaluate it on large
literals; the interval keeps lo ^ 2 at most n below hi ^ 2. -/
def sqrtBisect (n : Nat) : Nat → Nat → Nat → Nat
  | 0, lo, _ => lo
  | fuel + 1, lo, hi =>
      let mid := (lo + hi) / 2
      if mid = lo then lo
      else if mid * mid ≤ n then sqrtBisect n fuel mid hi
      else sqrtBisect n fuel lo mid

/-- Kernel-evaluable exact integer square root, used to implement the
rounding comparisons of the float model below. -/
def isqrtB (n : Nat) : Nat := sqrtBisect n (n + 1) 0 (n + 1)

/-- The CPython conversion of a non-negative int to a double, as its
exact value (an integer whenever the input is at least 2 ^ 52): the
input is rounded to 53 significant bits, ties to even.  A result of
2 ^ 1024 or more means the conversion raises OverflowError, which
factors_of_n checks below. -/
def toDouble (n : Nat) : Nat :=
  let k := nbits n
  if k ≤ 53 then n
  else
    let s := k - 53
    let q := n / 2 ^ s
    let r := n % 2 ^ s
    if 2 * r < 2 ^ s then q * 2 ^ s
    else if 2 ^ s < 2 * r then (q + 1) * 2 ^ s
    else if q % 2 = 0 then q * 2 ^ s else (q + 1) * 2 ^ s

/-- The Python expression int(n ** 0.5) for a non-negative int n: the
truncated correctly rounded square root of the converted double.  The
true square root lies in the binade [2 ^ (j - 1), 2 ^ j), so the float
grid there has spacing 2 ^ (j - 53); the nearest grid point (ties to
even) is found by comparing the scaled input with the squared midpoint,
and the final division truncates as int() does.  C pow applied to the
exponent 0.5 is correctly rounded on the platforms CPython documents,
and at every input the theorems below evaluate this model on, the exact
result is representable, so every faithful libm agrees. -/
def pyIntSqrt (n : Nat) : Nat :=
  let x := toDouble n
  let j := (nbits x + 1) / 2
  if 53 ≤ j then
    let t := j - 53
    let m := isqrtB (x / 4 ^ t)
    let c := (2 * m + 1) ^ 2 * 4 ^ t
    let M := if c < 4 * x then m + 1
             else if 4 * x < c then m
             else if m % 2 = 0 then m else m + 1
    M * 2 ^ t
  else
    let u := 53 - j
    let y := x * 4 ^ u
    let m := isqrtB y
    let c := (2 * m + 1) ^ 2
    let M := if c < 4 * y then m + 1
             else if 4 * y < c then m
             else if m % 2 = 0 then m else m + 1
    M / 2 ^ u

/-- The divisor loop of factors_of_n with the value B of its bound
int(n ** 0.5) made a parameter, so that the theorems cover every value
a platform libm can produce for it: the pair (1, n) followed by
(i, n / i) for each divisor i from 2 up to B. -/
def factorPairsB (B n : Nat) : List (Nat × Nat) :=
  (1, n) ::
    (List.range' 2 (B - 1)).filterMap
      (fun i => if n % i = 0 then some (i, n / i) else none)

/-- The function factors_of_n restricted to its defined domain, over
Nat, with the bound given by the float model pyIntSqrt. -/
def factorPairs (n : Nat) : List (Nat × Nat) := factorPairsB (pyIntSqrt n) n

/-- The function factors_of_n: assert n > -1; the conversion of n to a
double inside n ** 0.5 raises OverflowError when n rounds to 2 ^ 1024
or more; otherwise enumerate divisor pairs. -/
def factors_of_n (n : Int) : Except String (List (Nat × Nat)) :=
  if n > -1 then
    if toDouble n.toNat < 2 ^ 1024 then .ok (factorPairs n.toNat)
    else .error "OverflowError: int too large to convert to float"
  else .error "AssertionError: n > -1"

/-- The body of get_class_number over a non-negative discriminant: for b
from 0 to the integer square root of D / 3, when b ^ 2 + D is divisible
by 4, count the divisor pairs (a, c) of (b ^ 2 + D) / 4 with a ≥ b and
c ≥ b. -/
def classNumber (D : Nat) : Nat :=
  (List.range (isqrt (D / 3) + 1)).foldl
    (fun count b =>
      let temp := b ^ 2 + D
      if temp % 4 ≠ 0 then count
      else
        count +
          ((factorPairs (temp / 4)).filter
            (fun ft => decide (b ≤ ft.1) && decide (b ≤ ft.2))).length)
    0

/-- The function get_class_number: on a negative D the expression
(D / 3) ** 0.5 is a complex number in Python and int() of it raises
TypeError; on a non-negative D the count is computed and returned. -/
def get_class_number (D : Int) : Except String Nat :=
  if D < 0 then .error "TypeError: int of complex"
  else .ok (classNumber D.toNat)

/-- A whole-valued float coefficient, the shape the constructor
eliminates. -/
def isWholeFloat : PyNum → Bool
  | .pint _ => false
  | .pfloat q => q.den == 1

/-- The polynomial invariant stated by the spec: no coefficient is
numerically zero and no coefficient is a whole-valued float. -/
def GoodPoly (P : BasicPolynomial) : Prop :=
  ∀ kv ∈ P.dc_powers, kv.2.toRat ≠ 0 ∧ isWholeFloat kv.2 = false

/-- The search never exceeds its bound. -/
theorem isqrtAux_le (n k : Nat) : isqrtAux n k ≤ k := by
  induction k with
  | zero => exact Nat.le_refl 0
  | succ k ih =>
      unfold isqrtAux
      split
      · exact Nat.le_refl _
      · exact Nat.le_trans ih (Nat.le_succ k)

/-- The square of the search result is within the target. -/
theorem isqrtAux_sq_le (n k : Nat) : isqrtAux n k * isqrtAux n k ≤ n := by
  induction k with
  | zero => simp [isqrtAux]
  | succ k ih =>
      unfold isqrtAux
      split
      · assumption
      · exact ih

/-- The search result dominates every candidate within the bound. -/
theorem le_isqrtAux (n k j : Nat) (hj : j ≤ k) (hsq : j * j ≤ n) :
    j ≤ isqrtAux n k := by
  induction k with
  | zero =>
      have : j = 0 := Nat.le_zero.mp hj
      simp [isqrtAux, this]
  | succ k ih =>
      unfold isqrtAux
      split
      · exact hj
      · rcases Nat.lt_or_ge j (k + 1) with h | h
        · exact ih (Nat.lt_succ_iff.mp h)
        · have hjk : j = k + 1 := Nat.le_antisymm hj h
          subst hjk
          exact absurd hsq (by assumption)

/-- The structural integer square root agrees with Nat.sqrt. -/
theorem isqrt_eq_sqrt (n : Nat) : isqrt n = Nat.sqrt n := by
  apply Nat.le_antisymm
  · exact Nat.le_sqrt.mpr (isqrtAux_sq_le n n)
  · exact le_isqrtAux n n (Nat.sqrt n) (Nat.sqrt_le_self n) (Nat.sqrt_le n)

/-- Numeric value of a Python subtraction. -/
theorem PyNum.toRat_sub (a b : PyNum) : (a.sub b).toRat = a.toRat - b.toRat := by
  cases a <;> cases b <;> simp [PyNum.sub, PyNum.toRat]

/-- Numeric equality is reflexive. -/
theorem PyNum.beq_self (a : PyNum) : a.beq a = true := by
  simp [PyNum.beq]

/-- Setting a key makes lookup of that key return the new value. -/
theorem PyDict.lookup_set_self (d : PyDict) (k : Int) (v : PyNum) :
    (d.set k v).lookup k = some v := by
  induction d with
  | nil => simp [PyDict.set, PyDict.lookup]
  | cons kv rest ih =>
      obtain ⟨k0, w⟩ := kv
      by_cases h : k0 = k
      · subst h
        simp [PyDict.set, PyDict.lookup]
      · simp [PyDict.set, PyDict.lookup, h, ih]

/-- Setting a key leaves lookup of other keys unchanged. -/
theorem PyDict.lookup_set_ne (d : PyDict) {k k' : Int} (v : PyNum) (h : k' ≠ k) :
    (d.set k v).lookup k' = d.lookup k' := by
  have h2 : ¬ k = k' := fun hh => h hh.symm
  induction d with
  | nil => simp [PyDict.set, PyDict.lookup, h2]
  | cons kv rest ih =>
      obtain ⟨k0, w⟩ := kv
      by_cases h0 : k0 = k
      · subst h0
        simp [PyDict.set, PyDict.lookup, h2]
      · simp [PyDict.set, PyDict.lookup, h0, ih]

/-- Keys of a cons. -/
theorem PyDict.keys_cons (k : Int) (w : PyNum) (rest : PyDict) :
    PyDict.keys ((k, w) :: rest) = k :: PyDict.keys rest := rfl

/-- Decomposition of distinctness of the keys of a cons. -/
theorem PyDict.nodup_keys_cons {k : Int} {w : PyNum} {rest : PyDict}
    (hd : (PyDict.keys ((k, w) :: rest)).Nodup) :
    k ∉ PyDict.keys rest ∧ (PyDict.keys rest).Nodup := by
  rw [PyDict.keys_cons] at hd
  exact ⟨(List.nodup_cons.mp hd).1, (List.nodup_cons.mp hd).2⟩

/-- A member of a dict after a set is the new binding or an old binding at
a different key, provided the keys are pairwise distinct. -/
theorem PyDict.mem_set (d : PyDict) (k : Int) (v : PyNum) (hd : d.keys.Nodup) :
    ∀ kv ∈ d.set k v, kv = (k, v) ∨ (kv ∈ d ∧ kv.1 ≠ k) := by
  induction d with
  | nil =>
      intro kv hkv
      simp only [PyDict.set] at hkv
      exact Or.inl (List.mem_singleton.mp hkv)
  | cons kv0 rest ih =>
      obtain ⟨k0, w⟩ := kv0
      obtain ⟨hk0, hrest⟩ := PyDict.nodup_keys_cons hd
      intro kv hkv
      by_cases h0 : k0 = k
      · subst h0
        simp only [PyDict.set, if_pos rfl] at hkv
        rcases List.mem_cons.mp hkv with h | h
        · exact Or.inl h
        · refine Or.inr ⟨List.mem_cons_of_mem _ h, ?_⟩
          intro hk
          apply hk0
          rw [← hk]
          exact List.mem_map_of_mem Prod.fst h
      · simp only [PyDict.set, if_neg h0] at hkv
        rcases List.mem_cons.mp hkv with h | h
        · refine Or.inr ⟨?_, ?_⟩
          · rw [h]; exact List.mem_cons_self _ _
          · rw [h]; exact h0
        · rcases ih hrest kv h with h1 | h1
          · exact Or.inl h1
          · exact Or.inr ⟨List.mem_cons_of_mem _ h1.1, h1.2⟩

/-- A key of a dict after a set is the new key or an old key. -/
theorem PyDict.mem_keys_set (d : PyDict) (k : Int) (v : PyNum) :
    ∀ k' ∈ (d.set k v).keys, k' = k ∨ k' ∈ d.keys := by
  induction d with
  | nil =>
      intro k' hk'
      simp only [PyDict.set, PyDict.keys, List.map] at hk'
      exact Or.inl (List.mem_singleton.mp hk')
  | cons kv0 rest ih =>
      obtain ⟨k0, w⟩ := kv0
      intro k' hk'
      by_cases h0 : k0 = k
      · subst h0
        simp only [PyDict.set, if_pos rfl, PyDict.keys_cons] at hk'
        rcases List.mem_cons.mp hk' with h | h
        · exact Or.inl h
        · right
          rw [PyDict.keys_cons]
          exact List.mem_cons_of_mem _ h
      · simp only [PyDict.set, if_neg h0, PyDict.keys_cons] at hk'
        rcases List.mem_cons.mp hk' with h | h
        · right
          rw [h, PyDict.keys_cons]
          exact List.mem_cons_self _ _
        · rcases ih k' h with h1 | h1
          · exact Or.inl h1
          · right
            rw [PyDict.keys_cons]
            exact List.mem_cons_of_mem _ h1

/-- Setting a key preserves distinctness of the keys. -/
theorem PyDict.keys_set_nodup (d : PyDict) (k : Int) (v : PyNum)
    (hd : d.keys.Nodup) : ((d.set k v).keys).Nodup := by
  induction d with
  | nil => simp [PyDict.set, PyDict.keys]
  | cons kv0 rest ih =>
      obtain ⟨k0, w⟩ := kv0
      obtain ⟨hk0, hrest⟩ := PyDict.nodup_keys_cons hd
      by_cases h0 : k0 = k
      · subst h0
        simp only [PyDict.set, if_pos rfl, PyDict.keys_cons]
        exact List.nodup_cons.mpr ⟨hk0, hrest⟩
      · simp only [PyDict.set, if_neg h0, PyDict.keys_cons]
        refine List.nodup_cons.mpr ⟨?_, ih hrest⟩
        intro hmem
        rcases PyDict.mem_keys_set rest k v k0 hmem with h | h
        · exact h0 h
        · exact hk0 h

/-- With distinct keys, lookup of the key of a member returns its value. -/
theorem PyDict.lookup_eq_of_mem (d : PyDict) (hd : d.keys.Nodup) :
    ∀ kv ∈ d, d.lookup kv.1 = some kv.2 := by
  induction d with
  | nil =>
      intro kv hkv
      exact absurd hkv (List.not_mem_nil kv)
  | cons kv0 rest ih =>
      obtain ⟨k0, w⟩ := kv0
      obtain ⟨hk0, hrest⟩ := PyDict.nodup_keys_cons hd
      intro kv hkv
      rcases List.mem_cons.mp hkv with h | h
      · rw [h]
        simp [PyDict.lookup]
      · have hne : ¬ k0 = kv.1 := by
          intro hh
          apply hk0
          rw [hh]
          exact List.mem_map_of_mem Prod.fst h
        simp only [PyDict.lookup, if_neg hne]
        exact ih hrest kv h

/-- Lookup of the key of a member succeeds. -/
theorem PyDict.lookup_isSome_of_mem (d : PyDict) :
    ∀ kv ∈ d, (d.lookup kv.1).isSome := by
  induction d with
  | nil =>
      intro kv hkv
      exact absurd hkv (List.not_mem_nil kv)
  | cons kv0 rest ih =>
      obtain ⟨k0, w⟩ := kv0
      intro kv hkv
      by_cases hk : k0 = kv.1
      · simp [PyDict.lookup, hk]
      · simp only [PyDict.lookup, if_neg hk]
        rcases List.mem_cons.mp hkv with h | h
        · exact absurd (by rw [h]) hk
        · exact ih kv h

/-- Python dict equality is reflexive on dicts with distinct keys. -/
theorem PyDict.eqb_self (d : PyDict) (hd : d.keys.Nodup) : d.eqb d = true := by
  unfold PyDict.eqb
  rw [Bool.and_eq_true, List.all_eq_true, List.all_eq_true]
  constructor
  · intro kv hkv
    rw [PyDict.lookup_eq_of_mem d hd kv hkv]
    exact PyNum.beq_self kv.2
  · intro kv hkv
    exact PyDict.lookup_isSome_of_mem d kv hkv

/-- C1: the spec states that a constant-only polynomial compares equal to
a bare number exactly when the number equals its constant coefficient (0
if absent).  The code instead reads dc_powers.get(1, 0), which is always
0 for a constant polynomial, so the polynomial with constant coefficient
5 compares unequal to 5 and equal to 0: the guard is_constant makes the
key-1 lookup always miss, a slip for the intended key 0. -/
theorem eq_constant_five_with_number :
    (mkPoly [(0, .pint 5)] "x").eqNum (.pint 5) = .ok false ∧
    (mkPoly [(0, .pint 5)] "x").eqNum (.pint 0) = .ok true := by
  constructor <;> rfl

/-- C2: the spec states that negative and non-integer powers raise an
unsupported-operation error.  A non-integer power does raise, but the
code for a negative power returns the NotImplementedError instance as
the normal return value of the call instead of raising it. -/
theorem pow_negative_returns_error_value :
    (mkPoly [(1, .pint 1)] "x").pow (.pint (-1)) = .ok (.exc "Negative power") ∧
    (mkPoly [(1, .pint 1)] "x").pow (.pfloat (1 / 2)) = .error "Non-Integer power" := by
  constructor <;> rfl

set_option maxRecDepth 8000 in
/-- C3 counterexample: the claim says input 0 raises, but factors_of_n 0
passes the assert n > -1, the conversion of 0 to a double is exact, and
the call returns the list [(1, 0)] normally. -/
theorem factors_of_n_zero_returns : factors_of_n 0 = .ok [(1, 0)] := by rfl

/-- C3 amended: only a negative input fails the assert n > -1 and raises
an assertion failure; input 0 returns [(1, 0)] normally. -/
theorem factors_of_n_negative_raises (n : Int) (h : n < 0) :
    factors_of_n n = .error "AssertionError: n > -1" := by
  unfold factors_of_n
  rw [if_neg]
  omega

/-- Witness for C3 amended at n = -1. -/
theorem factors_of_n_negative_raises_witness :
    factors_of_n (-1) = .error "AssertionError: n > -1" :=
  factors_of_n_negative_raises (-1) (by decide)

/-- C4 counterexample: the claim says every D at most 0 fails, but
get_class_number 0 runs the loop at b = 0 with 4ac = 0, counts the pair
(1, 0) of factors_of_n 0, and returns the count 1 normally. -/
theorem get_class_number_zero_returns_one : get_class_number 0 = .ok 1 := by rfl

/-- C4 amended: only a negative D fails, because (D / 3) ** 0.5 is then a
complex number and int() of a complex raises TypeError; D = 0 returns
the count 1 normally. -/
theorem get_class_number_negative_raises (D : Int) (h : D < 0) :
    get_class_number D = .error "TypeError: int of complex" := by
  unfold get_class_number
  rw [if_pos h]

/-- Witness for C4 amended at D = -1. -/
theorem get_class_number_negative_raises_witness :
    get_class_number (-1) = .error "TypeError: int of complex" :=
  get_class_number_negative_raises (-1) (by decide)

/-- C5: on every D in [1, 170) the class-number computation returns
normally the deterministic non-negative count classNumber D, and the
implemented result at D = 47 is 3. -/
theorem class_number_range_and_47 :
    (∀ D : Nat, 1 ≤ D → D < 170 →
      get_class_number (D : Int) = .ok (classNumber D) ∧ 0 ≤ (classNumber D : Int)) ∧
    classNumber 47 = 3 := by
  constructor
  · intro D h1 h2
    constructor
    · unfold get_class_number
      rw [if_neg (by omega)]
      simp
    · exact Int.natCast_nonneg _
  · rfl

/-- Witness for C5 at D = 47. -/
theorem class_number_range_and_47_witness :
    get_class_number ((47 : Nat) : Int) = .ok (classNumber 47) ∧ classNumber 47 = 3 :=
  ⟨(class_number_range_and_47.1 47 (by decide) (by decide)).1,
   class_number_range_and_47.2⟩

/-- C9 counterexample: the claim says every arithmetic operation returns
a new Polynomial, but raising to the power 0 returns the bare number 1,
not a Polynomial, and the power 1 returns the operand itself. -/
theorem pow_zero_returns_bare_one :
    (mkPoly [(1, .pint 1)] "x").pow (.pint 0) = .ok (.int 1) := by rfl

/-- C9 amended: addition, subtraction and multiplication on polynomials
with matching variable labels return normally with a freshly constructed
Polynomial, and the operations are pure so the operands are unchanged;
the power 0 returns the bare number 1 and the power 1 returns the
operand polynomial itself rather than a new one. -/
theorem arith_ops_return_values (P Q : BasicPolynomial) (h : P.v = Q.v) :
    P.add Q = .ok (mkPoly (mergeFold PyNum.add P.dc_powers Q.dc_powers) P.v) ∧
    P.sub Q = .ok (mkPoly (mergeFold PyNum.sub P.dc_powers Q.dc_powers) P.v) ∧
    P.mulP Q = .ok (mkPoly (convDict P.dc_powers Q.dc_powers) P.v) ∧
    P.pow (.pint 0) = .ok (.int 1) ∧
    P.pow (.pint 1) = .ok (.poly P) := by
  refine ⟨?_, ?_, ?_, rfl, rfl⟩ <;>
    simp [BasicPolynomial.add, BasicPolynomial.sub, BasicPolynomial.mulP, h]

/-- Witness for C9 amended at two concrete polynomials. -/
theorem arith_ops_return_values_witness :
    (mkPoly [(1, .pint 1)] "x").add (mkPoly [(0, .pint 2)] "x") =
      .ok (mkPoly (mergeFold PyNum.add (mkPoly [(1, .pint 1)] "x").dc_powers
        (mkPoly [(0, .pint 2)] "x").dc_powers) (mkPoly [(1, .pint 1)] "x").v) ∧
    (mkPoly [(1, .pint 1)] "x").sub (mkPoly [(0, .pint 2)] "x") =
      .ok (mkPoly (mergeFold PyNum.sub (mkPoly [(1, .pint 1)] "x").dc_powers
        (mkPoly [(0, .pint 2)] "x").dc_powers) (mkPoly [(1, .pint 1)] "x").v) ∧
    (mkPoly [(1, .pint 1)] "x").mulP (mkPoly [(0, .pint 2)] "x") =
      .ok (mkPoly (convDict (mkPoly [(1, .pint 1)] "x").dc_powers
        (mkPoly [(0, .pint 2)] "x").dc_powers) (mkPoly [(1, .pint 1)] "x").v) ∧
    (mkPoly [(1, .pint 1)] "x").pow (.pint 0) = .ok (.int 1) ∧
    (mkPoly [(1, .pint 1)] "x").pow (.pint 1) = .ok (.poly (mkPoly [(1, .pint 1)] "x")) :=
  arith_ops_return_values (mkPoly [(1, .pint 1)] "x") (mkPoly [(0, .pint 2)] "x") rfl

/-- C10: comparing two polynomials never reads the variable labels: the
result is unchanged under any relabeling, and two polynomials with the
same exponent-to-coefficient dict (with distinct keys, as every Python
dict has) compare equal whatever their labels are. -/
theorem eq_ignores_variable_label :
    (∀ (d : PyDict) (v1 v2 : String), (PyDict.keys d).Nodup →
      BasicPolynomial.eqPoly (BasicPolynomial.mk d v1) (BasicPolynomial.mk d v2) = true) ∧
    (∀ (d1 d2 : PyDict) (v1 v2 w1 w2 : String),
      BasicPolynomial.eqPoly (BasicPolynomial.mk d1 v1) (BasicPolynomial.mk d2 v2) =
        BasicPolynomial.eqPoly (BasicPolynomial.mk d1 w1) (BasicPolynomial.mk d2 w2)) := by
  constructor
  · intro d v1 v2 hd
    exact PyDict.eqb_self d hd
  · intro d1 d2 v1 v2 w1 w2
    rfl

/-- Witness for C10 at a concrete dict and two distinct labels. -/
theorem eq_ignores_variable_label_witness :
    BasicPolynomial.eqPoly (BasicPolynomial.mk [(1, .pint 1)] "x")
      (BasicPolynomial.mk [(1, .pint 1)] "y") = true :=
  eq_ignores_variable_label.1 [(1, .pint 1)] "x" "y" (by decide)

set_option maxRecDepth 8000 in
/-- C6 counterexample: at n = (2^54 - 2^28) * (2^54 - 2^28 - 1) the
conversion of n to a double rounds n up to exactly (2^54 - 2^28)^2, so
int(n ** 0.5) evaluates to d = 2^54 - 2^28, one more than the exact
integer square root of n; d divides n, so the call returns normally a
list containing the pair (d, d - 1), whose first component exceeds its
second, falsifying the claimed ordering d1 at most d2. -/
theorem factor_pairs_unordered_at_large :
    (((2 : Nat) ^ 54 - 2 ^ 28, (2 : Nat) ^ 54 - 2 ^ 28 - 1) ∈
        factorPairs ((2 ^ 54 - 2 ^ 28) * (2 ^ 54 - 2 ^ 28 - 1)) ∧
      ¬ ((2 : Nat) ^ 54 - 2 ^ 28 ≤ 2 ^ 54 - 2 ^ 28 - 1)) ∧
    factors_of_n (((2 ^ 54 - 2 ^ 28) * (2 ^ 54 - 2 ^ 28 - 1) : Nat) : Int) =
      .ok (factorPairs ((2 ^ 54 - 2 ^ 28) * (2 ^ 54 - 2 ^ 28 - 1))) := by
  have hB : pyIntSqrt ((2 ^ 54 - 2 ^ 28) * (2 ^ 54 - 2 ^ 28 - 1)) =
      2 ^ 54 - 2 ^ 28 := by decide
  refine ⟨⟨?_, by decide⟩, ?_⟩
  · unfold factorPairs factorPairsB
    rw [hB]
    refine List.mem_cons_of_mem _ (List.mem_filterMap.mpr
      ⟨2 ^ 54 - 2 ^ 28, ?_, ?_⟩)
    · exact List.mem_range'.mpr ⟨2 ^ 54 - 2 ^ 28 - 2, by decide, by decide⟩
    · decide
  · unfold factors_of_n
    rw [if_pos (by decide)]
    have ht : (((2 ^ 54 - 2 ^ 28) * (2 ^ 54 - 2 ^ 28 - 1) : Nat) : Int).toNat =
        ((2 ^ 54 - 2 ^ 28) * (2 ^ 54 - 2 ^ 28 - 1) : Nat) := rfl
    rw [ht, if_pos (by decide)]

/-- C6 amended: for every positive n and every value B the platform
computes for the bound int(n ** 0.5), the enumerated list begins with
the pair (1, n), every pair multiplies exactly to n, and no pair is
repeated; every pair also has its smaller divisor first provided B does
not exceed the exact integer square root of n, which holds for every n
up to 2 ^ 52 but fails at some larger n; and whenever the conversion of
n to a double does not overflow, factors_of_n returns this list
normally with the bound of the float model. -/
theorem factor_pairs_sound (n : Nat) (h : 0 < n) (B : Nat) :
    (factorPairsB B n).head? = some (1, n) ∧
    (∀ p ∈ factorPairsB B n, p.1 * p.2 = n) ∧
    (factorPairsB B n).Nodup ∧
    (B * B ≤ n → ∀ p ∈ factorPairsB B n, p.1 ≤ p.2) ∧
    (toDouble n < 2 ^ 1024 →
      factors_of_n (n : Int) = .ok (factorPairsB (pyIntSqrt n) n)) := by
  refine ⟨rfl, ?_, ?_, ?_, ?_⟩
  · intro p hp
    rcases List.mem_cons.mp hp with hp1 | hp1
    · rw [hp1]
      exact Nat.one_mul n
    · rcases List.mem_filterMap.mp hp1 with ⟨i, hi, hfi⟩
      by_cases hmod : n % i = 0
      · rw [if_pos hmod] at hfi
        have hp2 : p = (i, n / i) := (Option.some.inj hfi).symm
        rw [hp2]
        exact Nat.mul_div_cancel' (Nat.dvd_of_mod_eq_zero hmod)
      · rw [if_neg hmod] at hfi
        simp at hfi
  · unfold factorPairsB
    refine List.nodup_cons.mpr ⟨?_, ?_⟩
    · intro hmem
      rcases List.mem_filterMap.mp hmem with ⟨i, hi, hfi⟩
      rcases List.mem_range'.mp hi with ⟨j, hj, hij⟩
      by_cases hmod : n % i = 0
      · rw [if_pos hmod] at hfi
        have h1 := ((Prod.mk.injEq _ _ _ _).mp (Option.some.inj hfi)).1
        omega
      · rw [if_neg hmod] at hfi
        simp at hfi
    · refine List.Nodup.filterMap ?_ (List.nodup_range' 2 (B - 1))
      intro a b p hpa hpb
      rw [Option.mem_def] at hpa hpb
      by_cases ha : n % a = 0
      · rw [if_pos ha] at hpa
        by_cases hb : n % b = 0
        · rw [if_pos hb] at hpb
          have e1 : a = p.1 := by rw [← Option.some.inj hpa]
          have e2 : b = p.1 := by rw [← Option.some.inj hpb]
          rw [e1, e2]
        · rw [if_neg hb] at hpb
          simp at hpb
      · rw [if_neg ha] at hpa
        simp at hpa
  · intro hB2 p hp
    rcases List.mem_cons.mp hp with hp1 | hp1
    · rw [hp1]
      exact h
    · rcases List.mem_filterMap.mp hp1 with ⟨i, hi, hfi⟩
      rcases List.mem_range'.mp hi with ⟨j, hj, hij⟩
      by_cases hmod : n % i = 0
      · rw [if_pos hmod] at hfi
        have hp2 : p = (i, n / i) := (Option.some.inj hfi).symm
        have hiB : i ≤ B := by omega
        have hsq : i * i ≤ n := le_trans (Nat.mul_le_mul hiB hiB) hB2
        rw [hp2]
        exact (Nat.le_div_iff_mul_le (by omega)).mpr hsq
      · rw [if_neg hmod] at hfi
        simp at hfi
  · intro hov
    unfold factors_of_n
    rw [if_pos (by omega)]
    have ht : ((n : Int)).toNat = n := rfl
    rw [ht, if_pos hov]
    rfl

/-- Witness for C6 amended at n = 4 with the bound of the float model. -/
theorem factor_pairs_sound_witness :
    (factorPairsB (pyIntSqrt 4) 4).head? = some (1, 4) ∧
    (∀ p ∈ factorPairsB (pyIntSqrt 4) 4, p.1 * p.2 = 4) ∧
    (factorPairsB (pyIntSqrt 4) 4).Nodup ∧
    (pyIntSqrt 4 * pyIntSqrt 4 ≤ 4 →
      ∀ p ∈ factorPairsB (pyIntSqrt 4) 4, p.1 ≤ p.2) ∧
    (toDouble 4 < 2 ^ 1024 →
      factors_of_n ((4 : Nat) : Int) = .ok (factorPairsB (pyIntSqrt 4) 4)) :=
  factor_pairs_sound 4 (by decide) (pyIntSqrt 4)

/-- Every polynomial built by the constructor satisfies the invariant:
the filter removes zero values and the coercion removes whole floats. -/
theorem mkPoly_good (dc : PyDict) (v : String) : GoodPoly (mkPoly dc v) := by
  intro kv hkv
  unfold mkPoly at hkv
  simp only [BasicPolynomial.mk] at hkv
  rcases List.mem_map.mp hkv with ⟨a, ha, hak⟩
  rcases List.mem_filter.mp ha with ⟨_, hnz⟩
  have hnz2 : a.2.toRat ≠ 0 := by
    intro hh
    rw [hh] at hnz
    simp at hnz
  rw [← hak]
  cases hc : a.2 with
  | pint m =>
      refine ⟨?_, by simp [normCoeff, isWholeFloat]⟩
      rw [hc] at hnz2
      simpa [normCoeff, PyNum.toRat] using hnz2
  | pfloat q =>
      rw [hc] at hnz2
      simp only [PyNum.toRat] at hnz2
      by_cases hden : q.den = 1
      · refine ⟨?_, by simp [normCoeff, hden, isWholeFloat]⟩
        simp only [normCoeff, hden, if_pos, PyNum.toRat]
        rw [Int.cast_ne_zero, Rat.num_ne_zero]
        exact hnz2
      · refine ⟨?_, by simp [normCoeff, hden, isWholeFloat]⟩
        simpa [normCoeff, hden, PyNum.toRat] using hnz2

/-- The result of a successful polynomial multiplication satisfies the
invariant, being built by the constructor. -/
theorem mulP_good (P Q R : BasicPolynomial) (h : P.mulP Q = .ok R) :
    GoodPoly R := by
  unfold BasicPolynomial.mulP at h
  split at h
  · simp at h
  · rw [← Except.ok.inj h]
    exact mkPoly_good _ _

/-- At least one multiplication step of the power loop has run, so a
successful result satisfies the invariant. -/
theorem powIter_good (P : BasicPolynomial) (m : Nat) (R : BasicPolynomial)
    (h : powIter P (m + 1) = .ok R) : GoodPoly R := by
  rw [powIter] at h
  cases hm : powIter P m with
  | error e =>
      rw [hm] at h
      simp at h
  | ok a =>
      rw [hm] at h
      exact mulP_good a P R h

/-- C7: every polynomial produced by the constructor, by addition,
subtraction, polynomial or scalar multiplication, or by a power of at
least 2 has no numerically zero coefficient and no whole-valued float
coefficient. -/
theorem poly_invariant_all_ops :
    (∀ (dc : PyDict) (v : String), GoodPoly (mkPoly dc v)) ∧
    (∀ P Q R : BasicPolynomial, P.add Q = .ok R → GoodPoly R) ∧
    (∀ P Q R : BasicPolynomial, P.sub Q = .ok R → GoodPoly R) ∧
    (∀ P Q R : BasicPolynomial, P.mulP Q = .ok R → GoodPoly R) ∧
    (∀ (P : BasicPolynomial) (c : PyNum), GoodPoly (P.mulScalar c)) ∧
    (∀ (P : BasicPolynomial) (p : Int) (R : BasicPolynomial),
      2 ≤ p → P.pow (.pint p) = .ok (.poly R) → GoodPoly R) := by
  refine ⟨mkPoly_good, ?_, ?_, mulP_good, ?_, ?_⟩
  · intro P Q R h
    unfold BasicPolynomial.add at h
    split at h
    · simp at h
    · rw [← Except.ok.inj h]
      exact mkPoly_good _ _
  · intro P Q R h
    unfold BasicPolynomial.sub at h
    split at h
    · simp at h
    · rw [← Except.ok.inj h]
      exact mkPoly_good _ _
  · intro P c
    unfold BasicPolynomial.mulScalar
    exact mkPoly_good _ _
  · intro P p R hp h
    simp only [BasicPolynomial.pow] at h
    rw [if_neg (by omega), if_neg (by omega), if_neg (by omega)] at h
    have hm : (p - 1).toNat = ((p - 1).toNat - 1) + 1 := by omega
    rw [hm] at h
    cases hit : powIter P (((p - 1).toNat - 1) + 1) with
    | error e =>
        rw [hit] at h
        simp at h
    | ok a =>
        rw [hit] at h
        have ha : a = R := by
          have := Except.ok.inj h
          exact PowValue.poly.inj this
        rw [← ha]
        exact powIter_good P _ a hit

/-- Witness for C7: the constructor normalizes a concrete dict, and
concrete results of addition, subtraction, multiplication and a power
of 5 satisfy the invariant. -/
theorem poly_invariant_all_ops_witness :
    GoodPoly (mkPoly [(0, .pfloat (5 / 2)), (1, .pfloat 2), (2, .pint 0)] "x") ∧
    GoodPoly (mkPoly (mergeFold PyNum.add (mkPoly [(1, .pint 1)] "x").dc_powers
      (mkPoly [(0, .pint 2)] "x").dc_powers) "x") ∧
    GoodPoly (mkPoly (mergeFold PyNum.sub (mkPoly [(1, .pint 1)] "x").dc_powers
      (mkPoly [(0, .pint 2)] "x").dc_powers) "x") ∧
    GoodPoly (BasicPolynomial.mk [(5, .pint 1)] "x") :=
  ⟨poly_invariant_all_ops.1 _ _,
   poly_invariant_all_ops.2.1 (mkPoly [(1, .pint 1)] "x") (mkPoly [(0, .pint 2)] "x")
     _ (by rfl),
   poly_invariant_all_ops.2.2.1 (mkPoly [(1, .pint 1)] "x") (mkPoly [(0, .pint 2)] "x")
     _ (by rfl),
   poly_invariant_all_ops.2.2.2.2.2 (mkPoly [(1, .pint 1)] "x") 5
     (BasicPolynomial.mk [(5, .pint 1)] "x") (by decide) (by rfl)⟩

/-- During the subtraction fold, if every pending item still finds its
numerically equal value in the dict and every other binding is already
numerically zero, then afterwards every binding is numerically zero. -/
theorem mergeFold_sub_zero (items : PyDict) :
    ∀ d : PyDict, d.keys.Nodup → items.keys.Nodup →
      (∀ kv ∈ items, ∃ c, d.lookup kv.1 = some c ∧ c.toRat = kv.2.toRat) →
      (∀ kv ∈ d, kv.2.toRat = 0 ∨ kv.1 ∈ items.keys) →
      ∀ kv ∈ mergeFold PyNum.sub d items, kv.2.toRat = 0 := by
  induction items with
  | nil =>
      intro d hd _ _ hrest kv hkv
      simp only [mergeFold, List.foldl_nil] at hkv
      rcases hrest kv hkv with h | h
      · exact h
      · exact absurd h (List.not_mem_nil _)
  | cons kv0 items2 ih =>
      intro d hd hkeys hagree hrest kv hkv
      obtain ⟨k, c⟩ := kv0
      obtain ⟨hk0, hkeys2⟩ := PyDict.nodup_keys_cons hkeys
      have hstep : mergeFold PyNum.sub d ((k, c) :: items2) =
          mergeFold PyNum.sub (d.set k ((d.get k (.pint 0)).sub c)) items2 := rfl
      rw [hstep] at hkv
      obtain ⟨c0, hc0, hc0v⟩ := hagree (k, c) (List.mem_cons_self _ _)
      have hget : d.get k (.pint 0) = c0 := by
        rw [PyDict.get, hc0]
        rfl
      have hv0 : ((d.get k (.pint 0)).sub c).toRat = 0 := by
        rw [hget, PyNum.toRat_sub, hc0v]
        exact sub_self _
      refine ih (d.set k ((d.get k (.pint 0)).sub c))
        (PyDict.keys_set_nodup d k _ hd) hkeys2 ?_ ?_ kv hkv
      · intro kv2 hkv2
        obtain ⟨c1, hc1, hc1v⟩ := hagree kv2 (List.mem_cons_of_mem _ hkv2)
        have hne : kv2.1 ≠ k := by
          intro hh
          apply hk0
          rw [← hh]
          exact List.mem_map_of_mem Prod.fst hkv2
        refine ⟨c1, ?_, hc1v⟩
        rw [PyDict.lookup_set_ne d _ hne]
        exact hc1
      · intro kv2 hkv2
        rcases PyDict.mem_set d k _ hd kv2 hkv2 with h | h
        · left
          rw [h]
          exact hv0
        · rcases hrest kv2 h.1 with h1 | h1
          · exact Or.inl h1
          · right
            rw [PyDict.keys_cons] at h1
            rcases List.mem_cons.mp h1 with he | he
            · exact absurd he h.2
            · exact he

/-- C8: for every polynomial P (every Python dict has pairwise distinct
keys), P - P returns normally, and the resulting polynomial compares
equal to the number 0: every coefficient cancels to zero and is pruned
by the constructor, leaving the empty constant polynomial. -/
theorem sub_self_eq_zero (P : BasicPolynomial) (h : P.dc_powers.keys.Nodup) :
    P.sub P = .ok (mkPoly (mergeFold PyNum.sub P.dc_powers P.dc_powers) P.v) ∧
    (mkPoly (mergeFold PyNum.sub P.dc_powers P.dc_powers) P.v).eqNum (.pint 0) =
      .ok true := by
  have hall : ∀ kv ∈ mergeFold PyNum.sub P.dc_powers P.dc_powers, kv.2.toRat = 0 :=
    mergeFold_sub_zero P.dc_powers P.dc_powers h h
      (fun kv hkv => ⟨kv.2, PyDict.lookup_eq_of_mem _ h kv hkv, rfl⟩)
      (fun kv hkv => Or.inr (List.mem_map_of_mem Prod.fst hkv))
  have hfilter : (mergeFold PyNum.sub P.dc_powers P.dc_powers).filter
      (fun kv => !(kv.2.toRat == 0)) = [] := by
    rw [List.filter_eq_nil_iff]
    intro a ha
    simp [hall a ha]
  constructor
  · unfold BasicPolynomial.sub
    rw [if_neg (by simp)]
  · unfold mkPoly
    rw [hfilter]
    rfl

/-- Witness for C8 at a concrete polynomial. -/
theorem sub_self_eq_zero_witness :
    (mkPoly [(1, .pint 1)] "x").sub (mkPoly [(1, .pint 1)] "x") =
      .ok (mkPoly (mergeFold PyNum.sub (mkPoly [(1, .pint 1)] "x").dc_powers
        (mkPoly [(1, .pint 1)] "x").dc_powers) (mkPoly [(1, .pint 1)] "x").v) ∧
    (mkPoly (mergeFold PyNum.sub (mkPoly [(1, .pint 1)] "x").dc_powers
        (mkPoly [(1, .pint 1)] "x").dc_powers) (mkPoly [(1, .pint 1)] "x").v).eqNum
      (.pint 0) = .ok true :=
  sub_self_eq_zero (mkPoly [(1, .pint 1)] "x") (by decide)

end HMI
